import Mathlib

/-!
Shallow embedding of the `lemon-graph` execution step
(`crates/lemon-graph/src/execution/step.rs`, `ExecutionStep::execute`).

The graph container is petgraph's directed graph.  We model it as a list of
node weights (a node handle is its index into the list; `node_weight` is
`List.get?`) together with a list of edges; `edges_directed` enumerates, in
some fixed order, the edges whose endpoint matches, which we model as
filtering the edge list in list order.  Claims about "the order edges are
enumerated" are stated relative to that list order.  `graph[idx] = w`
(petgraph's `IndexMut`) is modelled as `List.set`.

Node weights hold computation units behind a uniform `run` capability; an
async node's suspended invocation is modelled by its final result, so both
sync and async computation units are functions
`List Value → Except NodeError (List Value)`.
-/

namespace Lemon

/-- The `Value` data variants carried along the graph.  Modelled from the
spec: the repository defines `Value` outside the provided sources; the step
algorithm treats values opaquely and the spec requires at minimum a text
variant, clonable and comparable for equality. -/
inductive Value where
  | string (s : String)
deriving DecidableEq, Repr

/-- Node-level errors.  Modelled from the spec: `NodeError` is defined
outside the provided sources; the spec lists a missing positional input,
a wrong value variant at a position, and an opaque internal failure.  The
step algorithm only wraps these, never inspects them. -/
inductive NodeError where
  | missingInput (pos : Nat)
  | wrongVariant (pos : Nat)
  | internal (msg : String)
deriving DecidableEq, Repr

/-- A computation unit: the `SyncNode`/`AsyncNode` trait objects' `run`.
An async unit's boxed future is modelled by the result it resolves to. -/
structure NodeImpl where
  run : List Value → Except NodeError (List Value)

/-- `GraphNode`: `Store(Value)`, `SyncNode(Box<dyn SyncNode>)`,
`AsyncNode(Box<dyn AsyncNode>)`. -/
inductive GraphNode where
  | store (v : Value)
  | syncNode (n : NodeImpl)
  | asyncNode (n : NodeImpl)

/-- `GraphEdge`: `DataMap(usize)`, `DataFlow`, `ExecutionFlow`. -/
inductive GraphEdge where
  | dataMap (slot : Nat)
  | dataFlow
  | executionFlow
deriving DecidableEq, Repr

/-- One directed edge of the petgraph graph: endpoints and weight. -/
structure Edge where
  source : Nat
  target : Nat
  weight : GraphEdge
deriving DecidableEq, Repr

/-- The graph: node weights indexed by handle, plus the edge list in
enumeration order. -/
structure Graph where
  nodes : List GraphNode
  edges : List Edge

/-- `ExecutionStepError`: `NoWeight`, `InvalidWeight`, `NodeError(e)`. -/
inductive ExecutionStepError where
  | noWeight
  | invalidWeight
  | nodeError (e : NodeError)

/-- `graph.node_weight(idx)`. -/
def Graph.nodeWeight (g : Graph) (idx : Nat) : Option GraphNode :=
  g.nodes[idx]?

/-- `graph[idx] = w` (write a node weight in place; in petgraph the index
is always valid when this is reached, since edge endpoints always name
existing nodes). -/
def Graph.setNode (g : Graph) (idx : Nat) (w : GraphNode) : Graph :=
  { g with nodes := g.nodes.set idx w }

/-- `graph.edges_directed(n, Direction::Incoming)`: the edges whose target
is `n`, in enumeration order. -/
def Graph.edgesIn (g : Graph) (n : Nat) : List Edge :=
  g.edges.filter (fun e => e.target == n)

/-- `graph.edges_directed(n, Direction::Outgoing)`: the edges whose source
is `n`, in enumeration order. -/
def Graph.edgesOut (g : Graph) (n : Nat) : List Edge :=
  g.edges.filter (fun e => e.source == n)

/-- Phase 1, input discovery: incoming edges filtered to `DataMap`,
projected to `(data_idx, source_idx)` pairs. -/
def Graph.dataMapIns (g : Graph) (n : Nat) : List (Nat × Nat) :=
  (g.edgesIn n).filterMap (fun e =>
    match e.weight with
    | .dataMap dataIdx => some (dataIdx, e.source)
    | _ => none)

/-- Outgoing edges filtered to `DataMap`, projected to
`(target_idx, data_idx)` pairs (phase 5's `outputs` vector). -/
def Graph.dataMapOuts (g : Graph) (n : Nat) : List (Nat × Nat) :=
  (g.edgesOut n).filterMap (fun e =>
    match e.weight with
    | .dataMap dataIdx => some (e.target, dataIdx)
    | _ => none)

/-- Phase 6, successor enumeration: outgoing edges filtered to
`ExecutionFlow`, projected to their targets. -/
def Graph.execSuccessors (g : Graph) (n : Nat) : List Nat :=
  (g.edgesOut n).filterMap (fun e =>
    match e.weight with
    | .executionFlow => some e.target
    | _ => none)

/-- The `for edge in graph.edges_directed(source_idx, Incoming)` loop of
mirror resolution: walk the incoming edges of a source store, and for each
`DataFlow` edge read the mirror store's value into `new_value`, failing
with `NoWeight` if the mirror handle does not resolve and `InvalidWeight`
if it is not a `Store`. -/
def mirrorScan (g : Graph) : List Edge → Option Value →
    Except ExecutionStepError (Option Value)
  | [], acc => .ok acc
  | e :: rest, acc =>
    match e.weight with
    | .dataFlow =>
      match g.nodeWeight e.source with
      | none => .error .noWeight
      | some (.store v) => mirrorScan g rest (some v)
      | some _ => .error .invalidWeight
    | _ => mirrorScan g rest acc

/-- Phase 2, mirror resolution for one discovered `(data_idx, source_idx)`
pair: if the scan found a mirror value, commit it into the source store
(without inspecting the source's previous variant) and use it; otherwise
read the source store's own value, failing if the handle does not resolve
or is not a `Store`. -/
def resolveOne (g : Graph) (p : Nat × Nat) :
    Except ExecutionStepError (Graph × (Nat × Value)) :=
  match mirrorScan g (g.edgesIn p.2) none with
  | .error err => .error err
  | .ok (some v) => .ok (g.setNode p.2 (.store v), (p.1, v))
  | .ok none =>
    match g.nodeWeight p.2 with
    | none => .error .noWeight
    | some (.store v) => .ok (g, (p.1, v))
    | some _ => .error .invalidWeight

/-- The `inputs.into_iter().map(...).collect::<Result<Vec<_>,_>>()` over
the discovered pairs: each resolution sees the graph as mutated by the
previous ones, and the first error aborts, keeping the mutations made so
far (the returned graph is the state at the failure point). -/
def resolveInputsAux (g : Graph) :
    List (Nat × Nat) → Graph × Except ExecutionStepError (List (Nat × Value))
  | [] => (g, .ok [])
  | p :: rest =>
    match resolveOne g p with
    | .error err => (g, .error err)
    | .ok (g', pv) =>
      match resolveInputsAux g' rest with
      | (g'', .error err) => (g'', .error err)
      | (g'', .ok pvs) => (g'', .ok (pv :: pvs))

/-- The sort key order of phase 3: compare resolved pairs by slot index. -/
def slotLE (p q : Nat × Value) : Prop := p.1 ≤ q.1

instance : DecidableRel slotLE := fun p q => inferInstanceAs (Decidable (p.1 ≤ q.1))

instance : IsTotal (Nat × Value) slotLE := ⟨fun a b => Nat.le_total a.1 b.1⟩

instance : IsTrans (Nat × Value) slotLE := ⟨fun _ _ _ h1 h2 => Nat.le_trans h1 h2⟩

/-- Strict slot order, used to state uniqueness of the sorted list. -/
def slotLT (p q : Nat × Value) : Prop := p.1 < q.1

instance : IsAntisymm (Nat × Value) slotLT :=
  ⟨fun _ _ h1 h2 => absurd (Nat.lt_trans h1 h2) (Nat.lt_irrefl _)⟩

/-- Phase 3, ordering: `inputs.sort_by_key(|(idx, _)| *idx)` — a stable
sort ascending by slot index. -/
def sortBySlot (l : List (Nat × Value)) : List (Nat × Value) :=
  List.insertionSort slotLE l

/-- Phases 1–3 combined: discover the `(slot, source)` pairs, resolve each
through its mirrors, sort ascending by slot index and project to the plain
value list that is handed to the node's `run`. -/
def resolvedInputs (g : Graph) (stepIdx : Nat) :
    Graph × Except ExecutionStepError (List Value) :=
  match resolveInputsAux g (g.dataMapIns stepIdx) with
  | (g1, .error err) => (g1, .error err)
  | (g1, .ok pairs) => (g1, .ok ((sortBySlot pairs).map (fun pv => pv.2)))

/-- The body of phase 5's write loop, folded over an explicit list of
`(result position, value)` pairs: look up the first outgoing
`(target, data_idx)` pair whose index matches the position; on a match
overwrite the target's weight with `Store(value)`, otherwise skip. -/
def commitList (outs : List (Nat × Nat)) (g : Graph) (l : List (Nat × Value)) :
    Graph :=
  l.foldl (fun g iv =>
    match outs.find? (fun p => p.2 == iv.1) with
    | some (storeIdx, _) => g.setNode storeIdx (.store iv.2)
    | none => g) g

/-- Phase 5, output commit: `for (i, value) in res.into_iter().enumerate()`
over the fixed `outs` vector. -/
def commitOutputs (outs : List (Nat × Nat)) (g : Graph) (res : List Value) :
    Graph :=
  commitList outs g res.enum

/-- `ExecutionStep::execute`, whole pipeline.  Returns the final graph
state together with either the successor list or the error that aborted
the step (the graph component is the state at the abort point, so mirror
commits made before a failure persist). -/
def executeStep (g : Graph) (stepIdx : Nat) :
    Graph × Except ExecutionStepError (List Nat) :=
  match resolvedInputs g stepIdx with
  | (g1, .error err) => (g1, .error err)
  | (g1, .ok inputs) =>
    match g1.nodeWeight stepIdx with
    | none => (g1, .error .noWeight)
    | some (.store _) => (g1, .error .invalidWeight)
    | some (.syncNode n) =>
      match n.run inputs with
      | .error e => (g1, .error (.nodeError e))
      | .ok res =>
        let g2 := commitOutputs (g1.dataMapOuts stepIdx) g1 res
        (g2, .ok (g2.execSuccessors stepIdx))
    | some (.asyncNode n) =>
      match n.run inputs with
      | .error e => (g1, .error (.nodeError e))
      | .ok res =>
        let g2 := commitOutputs (g1.dataMapOuts stepIdx) g1 res
        (g2, .ok (g2.execSuccessors stepIdx))

/-- Driving several steps in sequence (each step sees the graph left by
the previous one); used to state frame properties across repeated steps. -/
def runSteps (g : Graph) : List Nat → Graph
  | [] => g
  | s :: rest => runSteps (executeStep g s).1 rest

/-! Observation helpers used to state the properties. -/

/-- The `DataFlow` predecessors of a node, in enumeration order: exactly
the edges the mirror-resolution loop reacts to. -/
def Graph.dataFlowPreds (g : Graph) (n : Nat) : List Edge :=
  (g.edgesIn n).filter (fun e => e.weight == .dataFlow)

/-- The value held by a handle when it resolves to a `Store`. -/
def Graph.storeVal (g : Graph) (idx : Nat) : Option Value :=
  match g.nodeWeight idx with
  | some (.store v) => some v
  | _ => none

/-- Whether an edge weight is a `DataMap` binding (of any slot). -/
def GraphEdge.isDataMap : GraphEdge → Bool
  | .dataMap _ => true
  | _ => false

/-- Whether a node weight is a `Store`. -/
def GraphNode.isStore : GraphNode → Bool
  | .store _ => true
  | _ => false

/-! Concrete computation units and graphs used to evaluate the properties
on explicit inputs. -/

/-- The identity computation of the repository's own step tests. -/
def idNode : NodeImpl := ⟨fun vs => .ok vs⟩

/-- A computation that ignores its inputs and returns a fixed output
vector. -/
def constNode (out : List Value) : NodeImpl := ⟨fun _ => .ok out⟩

/-- A computation that always fails with an internal node error. -/
def failNode : NodeImpl := ⟨fun _ => .error (.internal "boom")⟩

/-- Two input stores wired to a computation node with the slot-1 edge
enumerated before the slot-0 edge. -/
def gW1 : Graph :=
  ⟨[.store (.string "a"), .store (.string "b"), .syncNode idNode],
   [⟨1, 2, .dataMap 1⟩, ⟨0, 2, .dataMap 0⟩]⟩

/-- A store with two `DataFlow` predecessors holding different values. -/
def gW2 : Graph :=
  ⟨[.store (.string "a"), .store (.string "b"), .store (.string "x")],
   [⟨0, 2, .dataFlow⟩, ⟨1, 2, .dataFlow⟩]⟩

/-- A computation node whose `DataMap` input source is itself a
computation node (not a store), but with a `DataFlow` edge from a real
store into that wrong-variant source. -/
def gC3 : Graph :=
  ⟨[.store (.string "w"), .syncNode idNode, .syncNode idNode],
   [⟨2, 1, .dataMap 0⟩, ⟨0, 2, .dataFlow⟩]⟩

/-- A `DataFlow` mirror whose source is a computation node. -/
def gW3a : Graph :=
  ⟨[.syncNode idNode, .store (.string "x")], [⟨0, 1, .dataFlow⟩]⟩

/-- A lone computation node, used as a wrong-variant `DataMap` source
with no mirror. -/
def gW3b : Graph := ⟨[.syncNode idNode], []⟩

/-- A node with outgoing `DataMap` edges at slots 0 and 5. -/
def gW4 : Graph :=
  ⟨[.syncNode idNode, .store (.string "x"), .store (.string "y")],
   [⟨0, 1, .dataMap 0⟩, ⟨0, 2, .dataMap 5⟩]⟩

/-- A failing node whose input store is refreshed from a mirror before
the failure, plus an output store that must stay untouched. -/
def gW5 : Graph :=
  ⟨[.store (.string "w"), .syncNode failNode, .store (.string "x"),
    .store (.string "out")],
   [⟨2, 1, .dataMap 0⟩, ⟨0, 2, .dataFlow⟩, ⟨1, 3, .dataMap 0⟩]⟩

/-- A single store and no edges. -/
def gW6 : Graph := ⟨[.store (.string "a")], []⟩

/-- A node with two `ExecutionFlow` successors and an unrelated data
edge. -/
def gW7 : Graph :=
  ⟨[.syncNode idNode, .syncNode idNode, .syncNode idNode],
   [⟨0, 1, .executionFlow⟩, ⟨0, 2, .executionFlow⟩, ⟨0, 1, .dataMap 99⟩]⟩

/-- An input store feeding a computation node, with a separate output
store. -/
def gW8 : Graph :=
  ⟨[.store (.string "a"), .syncNode idNode, .store (.string "out")],
   [⟨0, 1, .dataMap 0⟩, ⟨1, 2, .dataMap 0⟩]⟩

/-- A producing node whose slot-0 output edge targets another computation
node rather than a store. -/
def gW9 : Graph :=
  ⟨[.syncNode (constNode [.string "z"]), .syncNode idNode],
   [⟨0, 1, .dataMap 0⟩]⟩

/-- A producing node with two outgoing `DataMap` edges carrying the same
slot index 0. -/
def gW10 : Graph :=
  ⟨[.syncNode (constNode [.string "z"]), .store (.string "p"),
    .store (.string "q")],
   [⟨0, 1, .dataMap 0⟩, ⟨0, 2, .dataMap 0⟩]⟩

/-! ### Basic facts about node writes -/

lemma setNode_edges (g : Graph) (idx : Nat) (w : GraphNode) :
    (g.setNode idx w).edges = g.edges := rfl

lemma setNode_length (g : Graph) (idx : Nat) (w : GraphNode) :
    (g.setNode idx w).nodes.length = g.nodes.length :=
  List.length_set ..

lemma nodeWeight_setNode_ne (g : Graph) {idx t : Nat} (w : GraphNode)
    (h : idx ≠ t) : (g.setNode idx w).nodeWeight t = g.nodeWeight t :=
  List.getElem?_set_ne h

lemma nodeWeight_setNode_self (g : Graph) {idx : Nat} (w : GraphNode)
    (h : idx < g.nodes.length) : (g.setNode idx w).nodeWeight idx = some w :=
  List.getElem?_set_self h

lemma nodeWeight_isSome_of_lt (g : Graph) {idx : Nat}
    (h : idx < g.nodes.length) : ∃ w, g.nodeWeight idx = some w := by
  exact ⟨g.nodes[idx], List.getElem?_eq_getElem h⟩

/-! ### Mirror-scan characterization -/

/-- A scan over edges none of which is `DataFlow` leaves the accumulator
untouched. -/
lemma mirrorScan_no_flow (g : Graph) {l : List Edge} (acc : Option Value)
    (h : ∀ e ∈ l, e.weight ≠ .dataFlow) : mirrorScan g l acc = .ok acc := by
  induction l with
  | nil => rfl
  | cons e rest ih =>
    have he := h e (List.mem_cons_self e rest)
    have hr : ∀ e' ∈ rest, e'.weight ≠ .dataFlow :=
      fun e' he' => h e' (List.mem_cons_of_mem e he')
    cases hw : e.weight with
    | dataFlow => exact absurd hw he
    | dataMap slot => simpa [mirrorScan, hw] using ih hr
    | executionFlow => simpa [mirrorScan, hw] using ih hr

/-- A successful scan either leaves the accumulator untouched or some
`DataFlow` edge occurs in the scanned list. -/
lemma mirrorScan_ok_cases (g : Graph) {l : List Edge} {acc r : Option Value}
    (h : mirrorScan g l acc = .ok r) :
    r = acc ∨ ∃ e ∈ l, e.weight = .dataFlow := by
  induction l generalizing acc with
  | nil =>
    left
    simpa [mirrorScan] using h.symm
  | cons e rest ih =>
    cases hw : e.weight with
    | dataFlow => exact Or.inr ⟨e, List.mem_cons_self e rest, hw⟩
    | dataMap slot =>
      rcases ih (by simpa [mirrorScan, hw] using h) with h' | ⟨e', he', hw'⟩
      · exact Or.inl h'
      · exact Or.inr ⟨e', List.mem_cons_of_mem e he', hw'⟩
    | executionFlow =>
      rcases ih (by simpa [mirrorScan, hw] using h) with h' | ⟨e', he', hw'⟩
      · exact Or.inl h'
      · exact Or.inr ⟨e', List.mem_cons_of_mem e he', hw'⟩

/-- When every `DataFlow` edge in the list points back to a resolvable
`Store`, the scan succeeds and returns the value of the **last** `DataFlow`
edge's source (or the accumulator when there is none). -/
lemma mirrorScan_eq_getLast (g : Graph) {l : List Edge} (acc : Option Value)
    (h : ∀ e ∈ l, e.weight = .dataFlow →
      ∃ w, g.nodeWeight e.source = some (.store w)) :
    mirrorScan g l acc = .ok
      (match (l.filter (fun e => e.weight == .dataFlow)).getLast? with
       | none => acc
       | some e => g.storeVal e.source) := by
  induction l generalizing acc with
  | nil => rfl
  | cons e rest ih =>
    have hr : ∀ e' ∈ rest, e'.weight = .dataFlow →
        ∃ w, g.nodeWeight e'.source = some (.store w) :=
      fun e' he' => h e' (List.mem_cons_of_mem e he')
    cases hw : e.weight with
    | dataFlow =>
      obtain ⟨w, hws⟩ := h e (List.mem_cons_self e rest) hw
      have hstep : mirrorScan g (e :: rest) acc = mirrorScan g rest (some w) := by
        simp [mirrorScan, hw, hws]
      have hfilter : (e :: rest).filter (fun e => e.weight == .dataFlow) =
          e :: rest.filter (fun e => e.weight == .dataFlow) := by
        simp [List.filter_cons, hw]
      rw [hstep, ih (some w) hr, hfilter]
      cases hlast : (rest.filter (fun e => e.weight == .dataFlow)).getLast? with
      | none =>
        have : rest.filter (fun e => e.weight == .dataFlow) = [] :=
          List.getLast?_eq_none_iff.mp hlast
        simp [this, List.getLast?_cons, Graph.storeVal, hws]
      | some e' =>
        simp [List.getLast?_cons, hlast]
    | dataMap slot =>
      have hstep : mirrorScan g (e :: rest) acc = mirrorScan g rest acc := by
        simp [mirrorScan, hw]
      have hfilter : (e :: rest).filter (fun e => e.weight == .dataFlow) =
          rest.filter (fun e => e.weight == .dataFlow) := by
        simp [List.filter_cons, hw]
      rw [hstep, ih acc hr, hfilter]
    | executionFlow =>
      have hstep : mirrorScan g (e :: rest) acc = mirrorScan g rest acc := by
        simp [mirrorScan, hw]
      have hfilter : (e :: rest).filter (fun e => e.weight == .dataFlow) =
          rest.filter (fun e => e.weight == .dataFlow) := by
        simp [List.filter_cons, hw]
      rw [hstep, ih acc hr, hfilter]

/-- With all `DataFlow` sources resolvable in bounds, a failing scan can
only fail with the invalid-weight error. -/
lemma mirrorScan_error_invalid (g : Graph) {l : List Edge} {acc : Option Value}
    {err : ExecutionStepError}
    (hb : ∀ e ∈ l, e.weight = .dataFlow → e.source < g.nodes.length)
    (h : mirrorScan g l acc = .error err) : err = .invalidWeight := by
  induction l generalizing acc with
  | nil => simp [mirrorScan] at h
  | cons e rest ih =>
    have hrest : ∀ e' ∈ rest, e'.weight = .dataFlow →
        e'.source < g.nodes.length :=
      fun e' he' => hb e' (List.mem_cons_of_mem e he')
    cases hw : e.weight with
    | dataFlow =>
      obtain ⟨w, hws⟩ := nodeWeight_isSome_of_lt g
        (hb e (List.mem_cons_self e rest) hw)
      cases w with
      | store v =>
        exact ih hrest (by simpa [mirrorScan, hw, hws] using h)
      | syncNode n =>
        have : ExecutionStepError.invalidWeight = err := by
          simpa [mirrorScan, hw, hws] using h
        exact this.symm
      | asyncNode n =>
        have : ExecutionStepError.invalidWeight = err := by
          simpa [mirrorScan, hw, hws] using h
        exact this.symm
    | dataMap slot => exact ih hrest (by simpa [mirrorScan, hw] using h)
    | executionFlow => exact ih hrest (by simpa [mirrorScan, hw] using h)

/-! ### Single-input resolution -/

/-- With no `DataFlow` predecessor, resolution reads the store's own value
and leaves the graph untouched. -/
lemma resolveOne_no_flow (g : Graph) {d src : Nat} {v : Value}
    (hf : g.dataFlowPreds src = [])
    (hs : g.nodeWeight src = some (.store v)) :
    resolveOne g (d, src) = .ok (g, (d, v)) := by
  have hnf : ∀ e ∈ g.edgesIn src, e.weight ≠ .dataFlow := by
    intro e he hw
    have : e ∈ g.dataFlowPreds src := by
      simp [Graph.dataFlowPreds, List.mem_filter, he, hw]
    simp [hf] at this
  have hscan := mirrorScan_no_flow g (l := g.edgesIn src) none hnf
  simp [resolveOne, hscan, hs]

/-- With at least one `DataFlow` predecessor, all of them resolving to
stores, resolution commits and returns the value of the last predecessor
encountered. -/
lemma resolveOne_flow (g : Graph) {d src : Nat} {e : Edge} {w : Value}
    (hall : ∀ e' ∈ g.dataFlowPreds src,
      ∃ w', g.nodeWeight e'.source = some (.store w'))
    (hlast : (g.dataFlowPreds src).getLast? = some e)
    (hw : g.nodeWeight e.source = some (.store w)) :
    resolveOne g (d, src) = .ok (g.setNode src (.store w), (d, w)) := by
  have hall' : ∀ e' ∈ g.edgesIn src, e'.weight = .dataFlow →
      ∃ w', g.nodeWeight e'.source = some (.store w') := by
    intro e' he' hwt
    exact hall e' (by simp [Graph.dataFlowPreds, List.mem_filter, he', hwt])
  have hscan0 := mirrorScan_eq_getLast g (l := g.edgesIn src) none hall'
  rw [show (g.edgesIn src).filter (fun e => e.weight == .dataFlow) =
    g.dataFlowPreds src from rfl, hlast] at hscan0
  have hscan : mirrorScan g (g.edgesIn src) none = .ok (g.storeVal e.source) := by
    simpa using hscan0
  have hsv : g.storeVal e.source = some w := by
    simp [Graph.storeVal, hw]
  rw [hsv] at hscan
  simp [resolveOne, hscan]

/-- A successful resolution only ever writes the resolved source handle:
every other handle keeps its weight, and the edge list and node count are
preserved. -/
lemma resolveOne_ok_shape (g : Graph) {p : Nat × Nat} {g' : Graph}
    {pv : Nat × Value} (h : resolveOne g p = .ok (g', pv)) :
    g' = g ∨ g' = g.setNode p.2 (.store pv.2) := by
  unfold resolveOne at h
  cases hscan : mirrorScan g (g.edgesIn p.2) none with
  | error err => simp [hscan] at h
  | ok r =>
    cases r with
    | some v =>
      rw [hscan] at h
      simp only [Except.ok.injEq, Prod.mk.injEq] at h
      right
      rw [← h.1, ← h.2]
    | none =>
      rw [hscan] at h
      cases hwt : g.nodeWeight p.2 with
      | none => simp [hwt] at h
      | some w =>
        cases w with
        | store v =>
          simp only [hwt, Except.ok.injEq, Prod.mk.injEq] at h
          left
          exact h.1.symm
        | syncNode n => simp [hwt] at h
        | asyncNode n => simp [hwt] at h

lemma resolveOne_ok_edges (g : Graph) {p : Nat × Nat} {g' : Graph}
    {pv : Nat × Value} (h : resolveOne g p = .ok (g', pv)) :
    g'.edges = g.edges := by
  rcases resolveOne_ok_shape g h with h' | h'
  · rw [h']
  · rw [h', setNode_edges]

lemma resolveOne_ok_length (g : Graph) {p : Nat × Nat} {g' : Graph}
    {pv : Nat × Value} (h : resolveOne g p = .ok (g', pv)) :
    g'.nodes.length = g.nodes.length := by
  rcases resolveOne_ok_shape g h with h' | h' <;> rw [h']
  exact setNode_length ..

lemma resolveOne_frame (g : Graph) {p : Nat × Nat} {g' : Graph}
    {pv : Nat × Value} {t : Nat} (h : resolveOne g p = .ok (g', pv))
    (ht : p.2 ≠ t) : g'.nodeWeight t = g.nodeWeight t := by
  rcases resolveOne_ok_shape g h with h' | h' <;> rw [h']
  exact nodeWeight_setNode_ne g _ ht

/-- A commit performed by resolution implies a `DataFlow` edge into the
resolved source. -/
lemma resolveOne_commit_flow (g : Graph) {p : Nat × Nat} {g' : Graph}
    {pv : Nat × Value} (h : resolveOne g p = .ok (g', pv)) (hne : g' ≠ g) :
    ∃ e ∈ g.edges, e.target = p.2 ∧ e.weight = .dataFlow := by
  unfold resolveOne at h
  cases hscan : mirrorScan g (g.edgesIn p.2) none with
  | error err => simp [hscan] at h
  | ok r =>
    cases r with
    | some v =>
      rcases mirrorScan_ok_cases g hscan with h' | ⟨e, he, hwt⟩
      · simp at h'
      · have hm := List.mem_filter.mp
          (show e ∈ g.edges.filter (fun e' => e'.target == p.2) from he)
        exact ⟨e, hm.1, by simpa using hm.2, hwt⟩
    | none =>
      rw [hscan] at h
      cases hwt : g.nodeWeight p.2 with
      | none => simp [hwt] at h
      | some w =>
        cases w with
        | store v =>
          simp only [hwt, Except.ok.injEq, Prod.mk.injEq] at h
          exact absurd h.1.symm hne
        | syncNode n => simp [hwt] at h
        | asyncNode n => simp [hwt] at h

/-- Resolution never produces a node-level error, and in a graph whose
edges all have in-bounds sources (as petgraph guarantees) it never
produces the missing-weight error either, provided the resolved source is
itself in bounds. -/
lemma resolveOne_error_invalid (g : Graph) {p : Nat × Nat}
    {err : ExecutionStepError}
    (hwf : ∀ e ∈ g.edges, e.source < g.nodes.length)
    (hp : p.2 < g.nodes.length)
    (h : resolveOne g p = .error err) : err = .invalidWeight := by
  unfold resolveOne at h
  cases hscan : mirrorScan g (g.edgesIn p.2) none with
  | error err' =>
    rw [hscan] at h
    have hb : ∀ e ∈ g.edgesIn p.2, e.weight = .dataFlow →
        e.source < g.nodes.length := by
      intro e he _
      exact hwf e (List.mem_filter.mp he).1
    have := mirrorScan_error_invalid g hb hscan
    simp only [Except.error.injEq] at h
    rw [← h, this]
  | ok r =>
    rw [hscan] at h
    cases r with
    | some v => simp at h
    | none =>
      obtain ⟨w, hwt⟩ := nodeWeight_isSome_of_lt g hp
      cases w with
      | store v => simp [hwt] at h
      | syncNode n =>
        simp only [hwt, Except.error.injEq] at h
        exact h.symm
      | asyncNode n =>
        simp only [hwt, Except.error.injEq] at h
        exact h.symm

/-! ### Whole-input-list resolution -/

lemma resolveInputsAux_edges (g : Graph) (ins : List (Nat × Nat)) :
    (resolveInputsAux g ins).1.edges = g.edges := by
  induction ins generalizing g with
  | nil => rfl
  | cons p rest ih =>
    unfold resolveInputsAux
    cases hres : resolveOne g p with
    | error err => rfl
    | ok gpv =>
      obtain ⟨g', pv⟩ := gpv
      have hed := resolveOne_ok_edges g hres
      cases haux : resolveInputsAux g' rest with
      | mk g'' r =>
        cases r with
        | error err => simpa [haux] using (ih g').trans hed
        | ok pvs => simpa [haux] using (ih g').trans hed

lemma resolveInputsAux_length (g : Graph) (ins : List (Nat × Nat)) :
    (resolveInputsAux g ins).1.nodes.length = g.nodes.length := by
  induction ins generalizing g with
  | nil => rfl
  | cons p rest ih =>
    unfold resolveInputsAux
    cases hres : resolveOne g p with
    | error err => rfl
    | ok gpv =>
      obtain ⟨g', pv⟩ := gpv
      have hlen := resolveOne_ok_length g hres
      cases haux : resolveInputsAux g' rest with
      | mk g'' r =>
        cases r with
        | error err => simpa [haux] using (ih g').trans hlen
        | ok pvs => simpa [haux] using (ih g').trans hlen

/-- Handles that are not the source of any discovered pair keep their
weight across input resolution, whether it succeeds or fails. -/
lemma resolveInputsAux_frame_src (g : Graph) {ins : List (Nat × Nat)}
    {t : Nat} (h : ∀ p ∈ ins, p.2 ≠ t) :
    (resolveInputsAux g ins).1.nodeWeight t = g.nodeWeight t := by
  induction ins generalizing g with
  | nil => rfl
  | cons p rest ih =>
    have hp := h p (List.mem_cons_self p rest)
    have hr : ∀ p' ∈ rest, p'.2 ≠ t :=
      fun p' hp' => h p' (List.mem_cons_of_mem p hp')
    unfold resolveInputsAux
    cases hres : resolveOne g p with
    | error err => rfl
    | ok gpv =>
      obtain ⟨g', pv⟩ := gpv
      have hfr := resolveOne_frame g hres hp
      cases haux : resolveInputsAux g' rest with
      | mk g'' r =>
        have htail : g''.nodeWeight t = g'.nodeWeight t := by
          have := ih (g := g') hr
          rwa [haux] at this
        cases r with
        | error err => simpa [haux] using htail.trans hfr
        | ok pvs => simpa [haux] using htail.trans hfr

/-- Handles with no incoming `DataFlow` edge keep their weight across
input resolution: only mirror targets are refreshed. -/
lemma resolveInputsAux_frame_flow (g : Graph) {ins : List (Nat × Nat)}
    {t : Nat}
    (h : ∀ e ∈ g.edges, e.weight = GraphEdge.dataFlow → e.target ≠ t) :
    (resolveInputsAux g ins).1.nodeWeight t = g.nodeWeight t := by
  induction ins generalizing g with
  | nil => rfl
  | cons p rest ih =>
    unfold resolveInputsAux
    cases hres : resolveOne g p with
    | error err => rfl
    | ok gpv =>
      obtain ⟨g', pv⟩ := gpv
      have hfr : g'.nodeWeight t = g.nodeWeight t := by
        by_cases hg : g' = g
        · rw [hg]
        · obtain ⟨e, he, het, hew⟩ := resolveOne_commit_flow g hres hg
          have hpt : p.2 ≠ t := het ▸ h e he hew
          exact resolveOne_frame g hres hpt
      have hed := resolveOne_ok_edges g hres
      have h' : ∀ e ∈ g'.edges, e.weight = GraphEdge.dataFlow →
          e.target ≠ t := by
        intro e he hew
        exact h e (hed ▸ he) hew
      cases haux : resolveInputsAux g' rest with
      | mk g'' r =>
        have htail : g''.nodeWeight t = g'.nodeWeight t := by
          have := ih (g := g') h'
          rwa [haux] at this
        cases r with
        | error err => simpa [haux] using htail.trans hfr
        | ok pvs => simpa [haux] using htail.trans hfr

/-- A handle holding a store keeps holding a store (though possibly a
refreshed value) across input resolution. -/
lemma resolveInputsAux_store (g : Graph) (ins : List (Nat × Nat)) {t : Nat}
    {v : Value} (h : g.nodeWeight t = some (GraphNode.store v)) :
    ∃ v', (resolveInputsAux g ins).1.nodeWeight t =
      some (GraphNode.store v') := by
  induction ins generalizing g v with
  | nil => exact ⟨v, h⟩
  | cons p rest ih =>
    unfold resolveInputsAux
    cases hres : resolveOne g p with
    | error err => exact ⟨v, h⟩
    | ok gpv =>
      obtain ⟨g', pv⟩ := gpv
      have hstep : ∃ v', g'.nodeWeight t = some (GraphNode.store v') := by
        rcases resolveOne_ok_shape g hres with h' | h'
        · exact ⟨v, h' ▸ h⟩
        · by_cases hpt : p.2 = t
          · subst hpt
            by_cases hlt : p.2 < g.nodes.length
            · exact ⟨pv.2, h' ▸ nodeWeight_setNode_self g _ hlt⟩
            · refine ⟨v, ?_⟩
              rw [h']
              have : g.nodes.set p.2 (GraphNode.store pv.2) = g.nodes :=
                List.set_eq_of_length_le (Nat.le_of_not_lt hlt)
              simpa [Graph.setNode, Graph.nodeWeight, this] using h
          · exact ⟨v, h' ▸ (nodeWeight_setNode_ne g _ hpt).trans h⟩
      obtain ⟨v', hv'⟩ := hstep
      obtain ⟨v'', hv''⟩ := ih (g := g') hv'
      cases haux : resolveInputsAux g' rest with
      | mk g'' r =>
        rw [haux] at hv''
        cases r with
        | error err => exact ⟨v'', by simpa [haux] using hv''⟩
        | ok pvs => exact ⟨v'', by simpa [haux] using hv''⟩

/-- Under petgraph's structural invariant (edge endpoints in bounds), a
failed input resolution always reports the invalid-weight error. -/
lemma resolveInputsAux_error_invalid (g : Graph) {ins : List (Nat × Nat)}
    {err : ExecutionStepError}
    (hwf : ∀ e ∈ g.edges, e.source < g.nodes.length)
    (hins : ∀ p ∈ ins, p.2 < g.nodes.length)
    (h : (resolveInputsAux g ins).2 = .error err) : err = .invalidWeight := by
  induction ins generalizing g with
  | nil => simp [resolveInputsAux] at h
  | cons p rest ih =>
    unfold resolveInputsAux at h
    cases hres : resolveOne g p with
    | error err' =>
      rw [hres] at h
      simp only [Except.error.injEq] at h
      rw [← h]
      exact resolveOne_error_invalid g hwf (hins p (List.mem_cons_self p rest))
        hres
    | ok gpv =>
      obtain ⟨g', pv⟩ := gpv
      simp only [hres] at h
      have hed := resolveOne_ok_edges g hres
      have hlen := resolveOne_ok_length g hres
      have hwf' : ∀ e ∈ g'.edges, e.source < g'.nodes.length := by
        intro e he
        rw [hlen]
        exact hwf e (hed ▸ he)
      have hins' : ∀ p' ∈ rest, p'.2 < g'.nodes.length := by
        intro p' hp'
        rw [hlen]
        exact hins p' (List.mem_cons_of_mem p hp')
      cases haux : resolveInputsAux g' rest with
      | mk g'' r =>
        rw [haux] at h
        cases r with
        | error err'' =>
          simp only at h
          obtain rfl := Except.error.inj h
          exact ih (g := g') hwf' hins' (by rw [haux])
        | ok pvs =>
          simp at h

/-- When every discovered pair resolves without touching the graph,
resolution succeeds with the pointwise values, in discovery order. -/
lemma resolveInputsAux_pure (g : Graph) {ins : List (Nat × Nat)}
    {w : Nat → Value}
    (h : ∀ p ∈ ins, resolveOne g p = .ok (g, (p.1, w p.1))) :
    resolveInputsAux g ins = (g, .ok (ins.map (fun p => (p.1, w p.1)))) := by
  induction ins with
  | nil => rfl
  | cons p rest ih =>
    have hp := h p (List.mem_cons_self p rest)
    have hr : ∀ p' ∈ rest, resolveOne g p' = .ok (g, (p'.1, w p'.1)) :=
      fun p' hp' => h p' (List.mem_cons_of_mem p hp')
    simp [resolveInputsAux, hp, ih hr]

/-! ### Output commit -/

lemma commitList_edges (outs : List (Nat × Nat)) (g : Graph)
    (l : List (Nat × Value)) : (commitList outs g l).edges = g.edges := by
  induction l generalizing g with
  | nil => rfl
  | cons iv rest ih =>
    show (commitList outs _ rest).edges = g.edges
    cases hf : outs.find? (fun p => p.2 == iv.1) with
    | none => simpa [commitList, hf] using ih g
    | some q => simpa [commitList, hf] using ih (g.setNode q.1 (.store iv.2))

lemma commitList_length (outs : List (Nat × Nat)) (g : Graph)
    (l : List (Nat × Value)) :
    (commitList outs g l).nodes.length = g.nodes.length := by
  induction l generalizing g with
  | nil => rfl
  | cons iv rest ih =>
    cases hf : outs.find? (fun p => p.2 == iv.1) with
    | none => simpa [commitList, hf] using ih g
    | some q =>
      have := ih (g.setNode q.1 (.store iv.2))
      simpa [commitList, hf, setNode_length] using this

/-- A handle that is never the first match of any committed position keeps
its weight across the write loop. -/
lemma commitList_frame (outs : List (Nat × Nat)) (g : Graph)
    {l : List (Nat × Value)} {t : Nat}
    (h : ∀ iv ∈ l, ∀ u j, outs.find? (fun p => p.2 == iv.1) = some (u, j) →
      u ≠ t) :
    (commitList outs g l).nodeWeight t = g.nodeWeight t := by
  induction l generalizing g with
  | nil => rfl
  | cons iv rest ih =>
    have hr : ∀ iv' ∈ rest, ∀ u j,
        outs.find? (fun p => p.2 == iv'.1) = some (u, j) → u ≠ t :=
      fun iv' hiv' => h iv' (List.mem_cons_of_mem iv hiv')
    cases hf : outs.find? (fun p => p.2 == iv.1) with
    | none => simpa [commitList, hf] using ih (g := g) hr
    | some q =>
      have hne : q.1 ≠ t := h iv (List.mem_cons_self iv rest) q.1 q.2 (by
        simpa using hf)
      have hstep := nodeWeight_setNode_ne g (GraphNode.store iv.2) hne
      have := ih (g := g.setNode q.1 (.store iv.2)) hr
      simp only [commitList, List.foldl_cons, hf]
      exact this.trans hstep

lemma commitList_append (outs : List (Nat × Nat)) (g : Graph)
    (l1 l2 : List (Nat × Value)) :
    commitList outs g (l1 ++ l2) = commitList outs (commitList outs g l1) l2 :=
  List.foldl_append ..

/-- Members of `res.enum` past position `i` carry indices strictly above
`i` and below `res.length`. -/
lemma mem_enum_drop {res : List Value} {i : Nat} {iv : Nat × Value}
    (h : iv ∈ res.enum.drop (i + 1)) : i < iv.1 ∧ iv.1 < res.length := by
  obtain ⟨k, hk⟩ := List.mem_iff_getElem?.mp h
  rw [List.getElem?_drop, List.getElem?_enum] at hk
  cases hv : res[i + 1 + k]? with
  | none => rw [hv] at hk; simp at hk
  | some a =>
    rw [hv] at hk
    simp only [Option.map_some', Option.some.injEq] at hk
    obtain ⟨hlt, _⟩ := List.getElem?_eq_some.mp hv
    rw [← hk]
    exact ⟨Nat.lt_of_lt_of_le (Nat.lt_succ_self i) (Nat.le_add_right _ _), hlt⟩

/-- Members of `res.enum` carry indices below `res.length`. -/
lemma mem_enum_lt {res : List Value} {iv : Nat × Value}
    (h : iv ∈ res.enum) : iv.1 < res.length := by
  obtain ⟨k, hk⟩ := List.mem_iff_getElem?.mp h
  rw [List.getElem?_enum] at hk
  cases hv : res[k]? with
  | none => rw [hv] at hk; simp at hk
  | some a =>
    rw [hv] at hk
    simp only [Option.map_some', Option.some.injEq] at hk
    obtain ⟨hlt, _⟩ := List.getElem?_eq_some.mp hv
    rw [← hk]
    exact hlt

/-- Positional write: when position `i` has a first-matching outgoing pair
targeting `t`, and no later committed position also first-matches `t`,
the write loop leaves `Store(res[i])` at `t` — regardless of what `t`
held before. -/
lemma commitOutputs_write (outs : List (Nat × Nat)) (g : Graph)
    {res : List Value} {i : Nat} {val : Value} {t j : Nat}
    (hval : res[i]? = some val)
    (hfind : outs.find? (fun p => p.2 == i) = some (t, j))
    (ht : t < g.nodes.length)
    (hlater : ∀ k, i < k → k < res.length → ∀ u j',
      outs.find? (fun p => p.2 == k) = some (u, j') → u ≠ t) :
    (commitOutputs outs g res).nodeWeight t = some (.store val) := by
  obtain ⟨hi, hgi⟩ := List.getElem?_eq_some.mp hval
  have hilen : i < res.enum.length := by rw [List.enum_length]; exact hi
  have henumi : res.enum[i] = (i, val) := by
    have := List.getElem?_enum res i
    rw [hval, List.getElem?_eq_getElem hilen] at this
    simpa using this
  have hsplit : res.enum = res.enum.take i ++ ((i, val) :: res.enum.drop (i + 1)) := by
    rw [← henumi, List.getElem_cons_drop, List.take_append_drop]
  rw [commitOutputs, hsplit, commitList_append]
  set g1 := commitList outs g (res.enum.take i) with hg1
  have hstep : commitList outs g1 ((i, val) :: res.enum.drop (i + 1)) =
      commitList outs (g1.setNode t (.store val)) (res.enum.drop (i + 1)) := by
    simp [commitList, hfind]
  rw [hstep]
  have ht1 : t < g1.nodes.length := by
    rw [hg1, commitList_length]
    exact ht
  have hself := nodeWeight_setNode_self g1 (GraphNode.store val) ht1
  have hframe : (commitList outs (g1.setNode t (.store val))
      (res.enum.drop (i + 1))).nodeWeight t =
      (g1.setNode t (.store val)).nodeWeight t := by
    apply commitList_frame
    intro iv hiv u j' hf
    obtain ⟨hgt, hlt⟩ := mem_enum_drop hiv
    exact hlater iv.1 hgt hlt u j' hf
  rw [hframe, hself]

/-- Frame for the write loop over a full result list: a handle that no
committed position first-matches keeps its weight. -/
lemma commitOutputs_frame (outs : List (Nat × Nat)) (g : Graph)
    {res : List Value} {t : Nat}
    (h : ∀ k, k < res.length → ∀ u j,
      outs.find? (fun p => p.2 == k) = some (u, j) → u ≠ t) :
    (commitOutputs outs g res).nodeWeight t = g.nodeWeight t := by
  apply commitList_frame
  intro iv hiv u j hf
  exact h iv.1 (mem_enum_lt hiv) u j hf

/-! ### Whole-step facts -/

lemma commitOutputs_edges (outs : List (Nat × Nat)) (g : Graph)
    (res : List Value) : (commitOutputs outs g res).edges = g.edges :=
  commitList_edges ..

lemma commitOutputs_length (outs : List (Nat × Nat)) (g : Graph)
    (res : List Value) :
    (commitOutputs outs g res).nodes.length = g.nodes.length :=
  commitList_length ..

lemma resolvedInputs_fst (g : Graph) (s : Nat) :
    (resolvedInputs g s).1 = (resolveInputsAux g (g.dataMapIns s)).1 := by
  unfold resolvedInputs
  cases haux : resolveInputsAux g (g.dataMapIns s) with
  | mk g1 r => cases r <;> simp

lemma resolvedInputs_edges (g : Graph) (s : Nat) :
    (resolvedInputs g s).1.edges = g.edges := by
  rw [resolvedInputs_fst]
  exact resolveInputsAux_edges ..

lemma resolvedInputs_length (g : Graph) (s : Nat) :
    (resolvedInputs g s).1.nodes.length = g.nodes.length := by
  rw [resolvedInputs_fst]
  exact resolveInputsAux_length ..

lemma execSuccessors_congr {g g' : Graph} (n : Nat) (h : g'.edges = g.edges) :
    g'.execSuccessors n = g.execSuccessors n := by
  unfold Graph.execSuccessors Graph.edgesOut
  rw [h]

lemma dataMapOuts_congr {g g' : Graph} (n : Nat) (h : g'.edges = g.edges) :
    g'.dataMapOuts n = g.dataMapOuts n := by
  unfold Graph.dataMapOuts Graph.edgesOut
  rw [h]

lemma mem_dataMapOuts {g : Graph} {s u j : Nat}
    (h : (u, j) ∈ g.dataMapOuts s) :
    ∃ e ∈ g.edges, e.source = s ∧ e.weight = GraphEdge.dataMap j ∧
      e.target = u := by
  simp only [Graph.dataMapOuts, List.mem_filterMap] at h
  obtain ⟨e, he, hmatch⟩ := h
  have hm := List.mem_filter.mp he
  cases hw : e.weight with
  | dataMap i =>
    rw [hw] at hmatch
    simp only [Option.some.injEq, Prod.mk.injEq] at hmatch
    exact ⟨e, hm.1, by simpa using hm.2, by rw [hw, hmatch.2], hmatch.1⟩
  | dataFlow => rw [hw] at hmatch; simp at hmatch
  | executionFlow => rw [hw] at hmatch; simp at hmatch

lemma mem_dataMapIns {g : Graph} {s d src : Nat}
    (h : (d, src) ∈ g.dataMapIns s) :
    ∃ e ∈ g.edges, e.target = s ∧ e.weight = GraphEdge.dataMap d ∧
      e.source = src := by
  simp only [Graph.dataMapIns, List.mem_filterMap] at h
  obtain ⟨e, he, hmatch⟩ := h
  have hm := List.mem_filter.mp he
  cases hw : e.weight with
  | dataMap i =>
    rw [hw] at hmatch
    simp only [Option.some.injEq, Prod.mk.injEq] at hmatch
    exact ⟨e, hm.1, by simpa using hm.2, by rw [hw, hmatch.1], hmatch.2⟩
  | dataFlow => rw [hw] at hmatch; simp at hmatch
  | executionFlow => rw [hw] at hmatch; simp at hmatch

lemma executeStep_edges (g : Graph) (s : Nat) :
    (executeStep g s).1.edges = g.edges := by
  unfold executeStep
  cases hri : resolvedInputs g s with
  | mk g1 r =>
    have h1 : g1.edges = g.edges := by
      have := resolvedInputs_edges g s
      rw [hri] at this
      exact this
    cases r with
    | error err => simpa using h1
    | ok inputs =>
      cases hw : g1.nodeWeight s with
      | none => simpa [hw] using h1
      | some w =>
        cases w with
        | store v => simpa [hw] using h1
        | syncNode n =>
          cases hrun : n.run inputs with
          | error e => simpa [hw, hrun] using h1
          | ok res =>
            simpa [hw, hrun, commitOutputs_edges] using h1
        | asyncNode n =>
          cases hrun : n.run inputs with
          | error e => simpa [hw, hrun] using h1
          | ok res =>
            simpa [hw, hrun, commitOutputs_edges] using h1

lemma executeStep_length (g : Graph) (s : Nat) :
    (executeStep g s).1.nodes.length = g.nodes.length := by
  unfold executeStep
  cases hri : resolvedInputs g s with
  | mk g1 r =>
    have h1 : g1.nodes.length = g.nodes.length := by
      have := resolvedInputs_length g s
      rw [hri] at this
      exact this
    cases r with
    | error err => simpa using h1
    | ok inputs =>
      cases hw : g1.nodeWeight s with
      | none => simpa [hw] using h1
      | some w =>
        cases w with
        | store v => simpa [hw] using h1
        | syncNode n =>
          cases hrun : n.run inputs with
          | error e => simpa [hw, hrun] using h1
          | ok res =>
            simpa [hw, hrun, commitOutputs_length] using h1
        | asyncNode n =>
          cases hrun : n.run inputs with
          | error e => simpa [hw, hrun] using h1
          | ok res =>
            simpa [hw, hrun, commitOutputs_length] using h1

/-- A failed step stops with exactly the graph produced by input
resolution: the phases after the failure point write nothing. -/
lemma executeStep_error_fst {g : Graph} {s : Nat} {err : ExecutionStepError}
    (h : (executeStep g s).2 = .error err) :
    (executeStep g s).1 = (resolveInputsAux g (g.dataMapIns s)).1 := by
  unfold executeStep at h ⊢
  cases hri : resolvedInputs g s with
  | mk g1 r =>
    have hfst : g1 = (resolveInputsAux g (g.dataMapIns s)).1 := by
      have := resolvedInputs_fst g s
      rw [hri] at this
      exact this
    rw [hri] at h
    cases r with
    | error e => simpa using hfst
    | ok inputs =>
      cases hw : g1.nodeWeight s with
      | none => simpa [hw] using hfst
      | some w =>
        cases w with
        | store v => simpa [hw] using hfst
        | syncNode n =>
          cases hrun : n.run inputs with
          | error e => simpa [hw, hrun] using hfst
          | ok res => simp [hw, hrun] at h
        | asyncNode n =>
          cases hrun : n.run inputs with
          | error e => simpa [hw, hrun] using hfst
          | ok res => simp [hw, hrun] at h

/-- Explicit success equation for a synchronous node. -/
lemma executeStep_sync_ok {g g1 : Graph} {s : Nat} {inputs res : List Value}
    {n : NodeImpl} (hri : resolvedInputs g s = (g1, .ok inputs))
    (hnode : g1.nodeWeight s = some (.syncNode n))
    (hrun : n.run inputs = .ok res) :
    executeStep g s = (commitOutputs (g1.dataMapOuts s) g1 res,
      .ok ((commitOutputs (g1.dataMapOuts s) g1 res).execSuccessors s)) := by
  unfold executeStep
  rw [hri]
  simp [hnode, hrun]

/-! ### Ordering: the sorted projection of distinct dense slots -/

lemma sortBySlot_perm (l : List (Nat × Value)) : (sortBySlot l).Perm l :=
  List.perm_insertionSort slotLE l

lemma sortBySlot_sorted (l : List (Nat × Value)) :
    List.Sorted slotLE (sortBySlot l) :=
  List.sorted_insertionSort slotLE l

/-- Sorting any permutation of the keyed list `[(0, v 0), …, (n-1, v (n-1))]`
by slot recovers exactly that list. -/
lemma sortBySlot_eq_of_perm_range (n : Nat) (v : Nat → Value)
    {l : List (Nat × Value)}
    (hperm : l.Perm ((List.range n).map (fun k => (k, v k)))) :
    sortBySlot l = (List.range n).map (fun k => (k, v k)) := by
  have hp : (sortBySlot l).Perm ((List.range n).map (fun k => (k, v k))) :=
    (sortBySlot_perm l).trans hperm
  have hsorted : List.Sorted slotLE (sortBySlot l) := sortBySlot_sorted l
  have hkeys : ((sortBySlot l).map Prod.fst).Perm
      (((List.range n).map (fun k => (k, v k))).map Prod.fst) := hp.map _
  have htk : ((List.range n).map (fun k => (k, v k))).map Prod.fst =
      List.range n := by
    simp [List.map_map, Function.comp_def]
  have hnodup : ((sortBySlot l).map Prod.fst).Nodup := by
    rw [hkeys.nodup_iff, htk]
    exact List.nodup_range n
  have hne : List.Pairwise (fun a b : Nat × Value => a.1 ≠ b.1)
      (sortBySlot l) := List.pairwise_map.mp hnodup
  have hlt : List.Sorted slotLT (sortBySlot l) := by
    refine (hsorted.and hne).imp ?_
    intro a b hab
    exact Nat.lt_of_le_of_ne hab.1 hab.2
  have htlt : List.Sorted slotLT ((List.range n).map (fun k => (k, v k))) := by
    refine List.pairwise_map.mpr ?_
    exact List.pairwise_lt_range n
  exact List.eq_of_perm_of_sorted hp hlt htlt

/-- `resolvedInputs` fails exactly when the underlying resolution does,
with the same error. -/
lemma resolvedInputs_error {g : Graph} {s : Nat} {g1 : Graph}
    {err : ExecutionStepError} (h : resolvedInputs g s = (g1, .error err)) :
    (resolveInputsAux g (g.dataMapIns s)).2 = .error err := by
  unfold resolvedInputs at h
  cases haux : resolveInputsAux g (g.dataMapIns s) with
  | mk g1' r =>
    rw [haux] at h
    cases r with
    | error e => simpa using congrArg Prod.snd h
    | ok pairs => simp at h

/-- Per-step frame: a handle with no incoming `DataFlow` edge that no
`DataMap` edge leaving the executed node targets keeps its weight across
the step, whether the step succeeds or fails. -/
lemma executeStep_frame {g : Graph} {s t : Nat}
    (hflow : ∀ e ∈ g.edges, e.weight = GraphEdge.dataFlow → e.target ≠ t)
    (hout : ∀ e ∈ g.edges, e.source = s → e.weight.isDataMap = true →
      e.target ≠ t) :
    (executeStep g s).1.nodeWeight t = g.nodeWeight t := by
  unfold executeStep
  cases hri : resolvedInputs g s with
  | mk g1 r =>
    have hfst : g1 = (resolveInputsAux g (g.dataMapIns s)).1 := by
      have := resolvedInputs_fst g s
      rw [hri] at this
      exact this
    have h1 : g1.nodeWeight t = g.nodeWeight t := by
      rw [hfst]
      exact resolveInputsAux_frame_flow g hflow
    have hed : g1.edges = g.edges := by
      have := resolvedInputs_edges g s
      rw [hri] at this
      exact this
    have hcommit : ∀ res : List Value,
        (commitOutputs (g1.dataMapOuts s) g1 res).nodeWeight t =
          g1.nodeWeight t := by
      intro res
      apply commitOutputs_frame
      intro k _ u j hf
      have hmem := List.mem_of_find?_eq_some hf
      obtain ⟨e, he, hsrc, hwt, htgt⟩ := mem_dataMapOuts hmem
      have : e.weight.isDataMap = true := by rw [hwt]; rfl
      exact htgt ▸ hout e (hed ▸ he) hsrc this
    cases r with
    | error err => simpa using h1
    | ok inputs =>
      cases hw : g1.nodeWeight s with
      | none => simpa [hw] using h1
      | some w =>
        cases w with
        | store v => simpa [hw] using h1
        | syncNode n =>
          cases hrun : n.run inputs with
          | error e => simpa [hw, hrun] using h1
          | ok res => simpa [hw, hrun] using (hcommit res).trans h1
        | asyncNode n =>
          cases hrun : n.run inputs with
          | error e => simpa [hw, hrun] using h1
          | ok res => simpa [hw, hrun] using (hcommit res).trans h1

/-- A handle beyond the node list has no incident edges under petgraph's
structural invariant, hence no discovered inputs. -/
lemma dataMapIns_nil_of_out_of_range {g : Graph} {s : Nat}
    (hwf : ∀ e ∈ g.edges, e.target < g.nodes.length)
    (hs : g.nodes.length ≤ s) : g.dataMapIns s = [] := by
  have hin : g.edgesIn s = [] := by
    rw [Graph.edgesIn, List.filter_eq_nil_iff]
    intro e he
    have := Nat.lt_of_lt_of_le (hwf e he) hs
    simpa using Nat.ne_of_lt this
  rw [Graph.dataMapIns, hin]
  rfl

/-- A scan that meets a resolvable non-`Store` mirror source fails. -/
lemma mirrorScan_error_of_nonstore (g : Graph) {l : List Edge} {e : Edge}
    {w : GraphNode}
    (hmem : e ∈ l) (hflow : e.weight = GraphEdge.dataFlow)
    (hnw : g.nodeWeight e.source = some w) (hns : w.isStore = false)
    (acc : Option Value) :
    ∃ err, mirrorScan g l acc = .error err := by
  induction l generalizing acc with
  | nil => cases hmem
  | cons e' rest ih =>
    cases hw' : e'.weight with
    | dataFlow =>
      cases hnw' : g.nodeWeight e'.source with
      | none => exact ⟨.noWeight, by simp [mirrorScan, hw', hnw']⟩
      | some w' =>
        cases w' with
        | store v =>
          have hrest : e ∈ rest := by
            rcases List.mem_cons.mp hmem with rfl | hr
            · rw [hnw'] at hnw
              obtain rfl := Option.some.inj hnw
              simp [GraphNode.isStore] at hns
            · exact hr
          obtain ⟨err, herr⟩ := ih hrest (some v)
          exact ⟨err, by simp [mirrorScan, hw', hnw', herr]⟩
        | syncNode n =>
          exact ⟨.invalidWeight, by simp [mirrorScan, hw', hnw']⟩
        | asyncNode n =>
          exact ⟨.invalidWeight, by simp [mirrorScan, hw', hnw']⟩
    | dataMap slot =>
      have hrest : e ∈ rest := by
        rcases List.mem_cons.mp hmem with rfl | hr
        · rw [hflow] at hw'
          cases hw'
        · exact hr
      obtain ⟨err, herr⟩ := ih hrest acc
      exact ⟨err, by simp [mirrorScan, hw', herr]⟩
    | executionFlow =>
      have hrest : e ∈ rest := by
        rcases List.mem_cons.mp hmem with rfl | hr
        · rw [hflow] at hw'
          cases hw'
        · exact hr
      obtain ⟨err, herr⟩ := ih hrest acc
      exact ⟨err, by simp [mirrorScan, hw', herr]⟩

/-- With every `DataFlow` source resolvable to some node, a failing scan
reports the invalid-weight error (never the missing-weight one). -/
lemma mirrorScan_error_invalid_resolvable (g : Graph) {l : List Edge}
    {acc : Option Value} {err : ExecutionStepError}
    (hres : ∀ e ∈ l, e.weight = GraphEdge.dataFlow →
      ∃ w, g.nodeWeight e.source = some w)
    (h : mirrorScan g l acc = .error err) : err = .invalidWeight := by
  induction l generalizing acc with
  | nil => simp [mirrorScan] at h
  | cons e rest ih =>
    have hrest : ∀ e' ∈ rest, e'.weight = GraphEdge.dataFlow →
        ∃ w, g.nodeWeight e'.source = some w :=
      fun e' he' => hres e' (List.mem_cons_of_mem e he')
    cases hw : e.weight with
    | dataFlow =>
      obtain ⟨w, hws⟩ := hres e (List.mem_cons_self e rest) hw
      cases w with
      | store v => exact ih hrest (by simpa [mirrorScan, hw, hws] using h)
      | syncNode n =>
        have : ExecutionStepError.invalidWeight = err := by
          simpa [mirrorScan, hw, hws] using h
        exact this.symm
      | asyncNode n =>
        have : ExecutionStepError.invalidWeight = err := by
          simpa [mirrorScan, hw, hws] using h
        exact this.symm
    | dataMap slot => exact ih hrest (by simpa [mirrorScan, hw] using h)
    | executionFlow => exact ih hrest (by simpa [mirrorScan, hw] using h)

/-! ## The claims -/

/-- C2: for an input store of the executed node, the step's per-input
resolution (`resolveOne`, the loop body of `ExecutionStep::execute`'s
input phase) commits the mirror store's current value into the input
store before reading it and uses that value as the slot's input; with
several `DataFlow` predecessors, the last one encountered during edge
enumeration wins; with none, the store's existing value is used and the
graph is untouched. -/
theorem spec_mirror_resolution (g : Graph) (d src : Nat)
    (hall : ∀ e ∈ g.dataFlowPreds src,
      ∃ w, g.nodeWeight e.source = some (GraphNode.store w)) :
    (∀ e w, (g.dataFlowPreds src).getLast? = some e →
      g.nodeWeight e.source = some (GraphNode.store w) →
      resolveOne g (d, src) = .ok (g.setNode src (.store w), (d, w)))
    ∧ (g.dataFlowPreds src = [] →
      ∀ v, g.nodeWeight src = some (GraphNode.store v) →
      resolveOne g (d, src) = .ok (g, (d, v))) :=
  ⟨fun _ _ hlast hw => resolveOne_flow g hall hlast hw,
   fun hnil _ hv => resolveOne_no_flow g hnil hv⟩

/-- C2 witness: in `gW2` the store at handle 2 has two `DataFlow`
predecessors holding `"a"` and `"b"`; resolution commits and uses `"b"`,
the value of the last enumerated predecessor. -/
theorem spec_mirror_resolution_witness :
    resolveOne gW2 (5, 2) =
      .ok (gW2.setNode 2 (.store (.string "b")), (5, .string "b")) := by
  have hall : ∀ e ∈ gW2.dataFlowPreds 2,
      ∃ w, gW2.nodeWeight e.source = some (GraphNode.store w) := by
    intro e he
    have he' : e = (⟨0, 2, .dataFlow⟩ : Edge) ∨ e = (⟨1, 2, .dataFlow⟩ : Edge) := by
      have : e ∈ [(⟨0, 2, .dataFlow⟩ : Edge), ⟨1, 2, .dataFlow⟩] := he
      simpa using this
    rcases he' with rfl | rfl
    · exact ⟨.string "a", rfl⟩
    · exact ⟨.string "b", rfl⟩
  exact (spec_mirror_resolution gW2 5 2 hall).1 ⟨1, 2, .dataFlow⟩
    (.string "b") rfl rfl

/-- C3 counterexample: in `gC3` the `DataMap` source (handle 2) of the
executed node is a `SyncNode`, not a `Store`, yet the step does not fail
with the invalid-weight error: the mirror value found through its
`DataFlow` predecessor is committed over it without any variant check and
the step succeeds. -/
theorem spec_mirror_variant_check_counterexample :
    (0, 2) ∈ gC3.dataMapIns 1
    ∧ (∃ nd, gC3.nodeWeight 2 = some (GraphNode.syncNode nd))
    ∧ (executeStep gC3 1).2 = .ok []
    ∧ (executeStep gC3 1).1.nodeWeight 2 = some (.store (.string "w")) :=
  ⟨by decide, ⟨idNode, rfl⟩, rfl, rfl⟩

/-- C3 amended: mirror resolution fails with the invalid-weight error
whenever a `DataFlow` mirror source resolves to a non-`Store` node, and
whenever the input store itself resolves to a non-`Store` node **and no
mirror value was found** (no `DataFlow` predecessor); when a mirror value
is found, the input node's variant is never checked — it is overwritten. -/
theorem spec_mirror_variant_check_amended (g : Graph) (d src : Nat) :
    (∀ e w, e ∈ g.dataFlowPreds src → g.nodeWeight e.source = some w →
      w.isStore = false →
      (∀ e' ∈ g.dataFlowPreds src, ∃ w', g.nodeWeight e'.source = some w') →
      resolveOne g (d, src) = .error .invalidWeight)
    ∧ (g.dataFlowPreds src = [] → ∀ w, g.nodeWeight src = some w →
      w.isStore = false → resolveOne g (d, src) = .error .invalidWeight) := by
  constructor
  · intro e w hmem hw hns hres
    have hm := List.mem_filter.mp hmem
    have hflow : e.weight = GraphEdge.dataFlow := by simpa using hm.2
    obtain ⟨err, herr⟩ :=
      mirrorScan_error_of_nonstore g hm.1 hflow hw hns none
    have hres' : ∀ e' ∈ g.edgesIn src, e'.weight = GraphEdge.dataFlow →
        ∃ w', g.nodeWeight e'.source = some w' := by
      intro e' he' hw'
      exact hres e' (List.mem_filter.mpr ⟨he', by simpa using hw'⟩)
    have hinv := mirrorScan_error_invalid_resolvable g hres' herr
    simp [resolveOne, herr, hinv]
  · intro hnil w hw hns
    have hnf : ∀ e ∈ g.edgesIn src, e.weight ≠ GraphEdge.dataFlow := by
      intro e he hwt
      have : e ∈ g.dataFlowPreds src :=
        List.mem_filter.mpr ⟨he, by simpa using hwt⟩
      simp [hnil] at this
    have hscan := mirrorScan_no_flow g (l := g.edgesIn src) none hnf
    cases w with
    | store _ => simp [GraphNode.isStore] at hns
    | syncNode n => simp [resolveOne, hscan, hw]
    | asyncNode n => simp [resolveOne, hscan, hw]

/-- C3 amended witness: a mirror source that is a `SyncNode` (`gW3a`),
and a mirrorless `DataMap` source that is a `SyncNode` (`gW3b`), both
fail with the invalid-weight error. -/
theorem spec_mirror_variant_check_amended_witness :
    resolveOne gW3a (0, 1) = .error .invalidWeight
    ∧ resolveOne gW3b (0, 0) = .error .invalidWeight := by
  constructor
  · refine (spec_mirror_variant_check_amended gW3a 0 1).1
      ⟨0, 1, .dataFlow⟩ (.syncNode idNode) (by decide) rfl rfl ?_
    intro e' he'
    have he'' : e' = (⟨0, 1, .dataFlow⟩ : Edge) := by
      have : e' ∈ [(⟨0, 1, .dataFlow⟩ : Edge)] := he'
      simpa using this
    subst he''
    exact ⟨.syncNode idNode, rfl⟩
  · exact (spec_mirror_variant_check_amended gW3b 0 0).2 rfl
      (.syncNode idNode) rfl rfl

/-- C5: whatever phase fails, the step stops with exactly the graph left
by input resolution — outputs are never committed past the failure point
(every node that is not an input source keeps its weight), but mirror
commits made during phase 2 are not rolled back (the failure-point graph
is the resolution graph itself, not the original). -/
theorem spec_failure_no_output_commit (g : Graph) (s : Nat)
    (err : ExecutionStepError) (h : (executeStep g s).2 = .error err) :
    (executeStep g s).1 = (resolveInputsAux g (g.dataMapIns s)).1
    ∧ ∀ t, (∀ p ∈ g.dataMapIns s, p.2 ≠ t) →
      (executeStep g s).1.nodeWeight t = g.nodeWeight t := by
  refine ⟨executeStep_error_fst h, ?_⟩
  intro t hp
  rw [executeStep_error_fst h]
  exact resolveInputsAux_frame_src g hp

/-- C5 witness: in `gW5` the node's run fails after the mirror refresh;
the output store (handle 3) is untouched, while the input store
(handle 2) was refreshed to the mirror's value and stays refreshed. -/
theorem spec_failure_no_output_commit_witness :
    (executeStep gW5 1).1.nodeWeight 3 = gW5.nodeWeight 3
    ∧ (executeStep gW5 1).1.nodeWeight 2 = some (.store (.string "w")) :=
  ⟨(spec_failure_no_output_commit gW5 1 (.nodeError (.internal "boom"))
      rfl).2 3 (by decide), rfl⟩

/-- C6: under petgraph's structural invariant (edge endpoints name
existing nodes), executing a step whose handle addresses a `Store` fails
with the invalid-weight error, and executing a step whose handle resolves
to no node fails with the missing-weight error. -/
theorem spec_wrong_variant_and_missing_handle (g : Graph) (s : Nat)
    (hwf : ∀ e ∈ g.edges,
      e.source < g.nodes.length ∧ e.target < g.nodes.length) :
    (∀ v, g.nodeWeight s = some (GraphNode.store v) →
      (executeStep g s).2 = .error .invalidWeight)
    ∧ (g.nodeWeight s = none →
      (executeStep g s).2 = .error .noWeight) := by
  constructor
  · intro v hs
    unfold executeStep
    cases hri : resolvedInputs g s with
    | mk g1 r =>
      cases r with
      | error err =>
        have herr := resolvedInputs_error hri
        have hinv : err = ExecutionStepError.invalidWeight := by
          refine resolveInputsAux_error_invalid g
            (fun e he => (hwf e he).1) ?_ herr
          intro p hp
          obtain ⟨e, he, _, _, hsrc⟩ := mem_dataMapIns hp
          rw [← hsrc]
          exact (hwf e he).1
        simp [hinv]
      | ok inputs =>
        have hfst : g1 = (resolveInputsAux g (g.dataMapIns s)).1 := by
          have := resolvedInputs_fst g s
          rw [hri] at this
          exact this
        obtain ⟨v', hv'⟩ :=
          resolveInputsAux_store g (g.dataMapIns s) hs
        have hg1 : g1.nodeWeight s = some (GraphNode.store v') := by
          rw [hfst]
          exact hv'
        simp [hg1]
  · intro hs
    have hslen : g.nodes.length ≤ s := by
      by_contra hlt
      obtain ⟨w, hw⟩ := nodeWeight_isSome_of_lt g (Nat.lt_of_not_le hlt)
      simp [hs] at hw
    have hins : g.dataMapIns s = [] :=
      dataMapIns_nil_of_out_of_range (fun e he => (hwf e he).2) hslen
    have hri : resolvedInputs g s = (g, .ok []) := by
      unfold resolvedInputs
      rw [hins]
      rfl
    unfold executeStep
    rw [hri]
    simp [hs]

/-- C6 witness: in `gW6`, executing handle 0 (a store) gives the
invalid-weight error and executing handle 5 (no node) gives the
missing-weight error. -/
theorem spec_wrong_variant_and_missing_handle_witness :
    (executeStep gW6 0).2 = .error .invalidWeight
    ∧ (executeStep gW6 5).2 = .error .noWeight :=
  ⟨(spec_wrong_variant_and_missing_handle gW6 0 (by decide)).1
      (.string "a") rfl,
   (spec_wrong_variant_and_missing_handle gW6 5 (by decide)).2 rfl⟩

/-- C7: a successful step returns exactly the targets of the executed
node's outgoing `ExecutionFlow` edges as they stand in the original
graph, whatever the `DataMap`/`DataFlow` configuration (no edges are
created or removed by the step, so an empty successor set stays empty and
a two-successor set returns both targets). -/
theorem spec_successors_exact (g : Graph) (s : Nat) (ns : List Nat)
    (h : (executeStep g s).2 = .ok ns) : ns = g.execSuccessors s := by
  unfold executeStep at h
  cases hri : resolvedInputs g s with
  | mk g1 r =>
    have h1 : g1.edges = g.edges := by
      have := resolvedInputs_edges g s
      rw [hri] at this
      exact this
    rw [hri] at h
    cases r with
    | error err => simp at h
    | ok inputs =>
      cases hw : g1.nodeWeight s with
      | none => simp [hw] at h
      | some w =>
        cases w with
        | store v => simp [hw] at h
        | syncNode n =>
          cases hrun : n.run inputs with
          | error e => simp [hw, hrun] at h
          | ok res =>
            simp only [hw, hrun, Except.ok.injEq] at h
            rw [← h]
            exact execSuccessors_congr s
              ((commitOutputs_edges _ g1 res).trans h1)
        | asyncNode n =>
          cases hrun : n.run inputs with
          | error e => simp [hw, hrun] at h
          | ok res =>
            simp only [hw, hrun, Except.ok.injEq] at h
            rw [← h]
            exact execSuccessors_congr s
              ((commitOutputs_edges _ g1 res).trans h1)

/-- C7 witness: in `gW7` the executed node has two `ExecutionFlow`
successors and an unrelated data edge; the step returns exactly both
targets. -/
theorem spec_successors_exact_witness : [1, 2] = gW7.execSuccessors 0 :=
  spec_successors_exact gW7 0 [1, 2] rfl

/-- C1: for a computation node whose incoming `DataMap` edges carry the
slot indices `0..n-1` in any enumeration order, with each slot `k` bound
to a store holding `v k` and no mirror interference, the step's input
phase produces exactly `[v 0, …, v (n-1)]` — and that list is precisely
the argument vector handed to the node's `run`, whose outcome then
determines the step's result. -/
theorem spec_inputs_slot_order (g : Graph) (s n : Nat) (src : Nat → Nat)
    (v : Nat → Value)
    (hperm : (g.dataMapIns s).Perm
      ((List.range n).map (fun k => (k, src k))))
    (hstore : ∀ k, k < n → g.nodeWeight (src k) = some (.store (v k)))
    (hnoflow : ∀ k, k < n → g.dataFlowPreds (src k) = []) :
    resolvedInputs g s = (g, .ok ((List.range n).map v))
    ∧ (∀ nd, g.nodeWeight s = some (GraphNode.syncNode nd) →
      (executeStep g s).2 = match nd.run ((List.range n).map v) with
        | .error e => .error (.nodeError e)
        | .ok res =>
          .ok ((commitOutputs (g.dataMapOuts s) g res).execSuccessors s))
    ∧ (∀ nd, g.nodeWeight s = some (GraphNode.asyncNode nd) →
      (executeStep g s).2 = match nd.run ((List.range n).map v) with
        | .error e => .error (.nodeError e)
        | .ok res =>
          .ok ((commitOutputs (g.dataMapOuts s) g res).execSuccessors s)) := by
  have hres : ∀ p ∈ g.dataMapIns s,
      resolveOne g p = .ok (g, (p.1, v p.1)) := by
    intro p hp
    have hp2 := hperm.subset hp
    obtain ⟨k, hk, hkp⟩ := List.mem_map.mp hp2
    obtain rfl := hkp.symm
    have hkn : k < n := List.mem_range.mp hk
    exact resolveOne_no_flow g (hnoflow k hkn) (hstore k hkn)
  have haux := resolveInputsAux_pure g (w := v) hres
  have hmapped : ((g.dataMapIns s).map (fun p => (p.1, v p.1))).Perm
      ((List.range n).map (fun k => (k, v k))) := by
    have h1 := hperm.map (fun p => (p.1, v p.1))
    have h2 : ((List.range n).map (fun k => (k, src k))).map
        (fun p => (p.1, v p.1)) = (List.range n).map (fun k => (k, v k)) := by
      simp [List.map_map, Function.comp_def]
    rwa [h2] at h1
  have hsort := sortBySlot_eq_of_perm_range n v hmapped
  have hmain : resolvedInputs g s = (g, .ok ((List.range n).map v)) := by
    unfold resolvedInputs
    rw [haux]
    simp only [hsort]
    simp [List.map_map, Function.comp_def]
  refine ⟨hmain, ?_, ?_⟩
  · intro nd hnd
    unfold executeStep
    rw [hmain]
    simp only [hnd]
    cases hrun : nd.run ((List.range n).map v) with
    | error e => simp [hrun]
    | ok res => simp [hrun]
  · intro nd hnd
    unfold executeStep
    rw [hmain]
    simp only [hnd]
    cases hrun : nd.run ((List.range n).map v) with
    | error e => simp [hrun]
    | ok res => simp [hrun]

/-- C1 witness: in `gW1` the slot-1 edge is enumerated before the slot-0
edge, yet the resolved input list is `["a", "b"]`, in slot order. -/
theorem spec_inputs_slot_order_witness :
    resolvedInputs gW1 2 = (gW1, .ok [Value.string "a", Value.string "b"]) := by
  have h := (spec_inputs_slot_order gW1 2 2 (fun k => k)
    (fun k => if k = 0 then Value.string "a" else Value.string "b")
    (by decide)
    (by intro k hk; interval_cases k <;> rfl)
    (by intro k hk; interval_cases k <;> rfl)).1
  simpa using h

/-- C4: output commit is positional — the value at result position `i`
goes to the store reached by the first outgoing `DataMap` edge whose slot
index equals `i` (provided no later result position also first-matches
that store), every handle that no produced position first-matches keeps
its previous weight (covering both stores reached only under other slot
indices and outputs with no matching edge, which are dropped; the commit
phase is total, so a dropped output causes no error). -/
theorem spec_output_commit_positional (g : Graph) (s : Nat)
    (res : List Value) :
    (∀ i val t j, res[i]? = some val →
      (g.dataMapOuts s).find? (fun p => p.2 == i) = some (t, j) →
      t < g.nodes.length →
      (∀ k u j', i < k →
        (g.dataMapOuts s).find? (fun p => p.2 == k) = some (u, j') →
        u ≠ t) →
      (commitOutputs (g.dataMapOuts s) g res).nodeWeight t =
        some (.store val))
    ∧ (∀ t, (∀ k u j, k < res.length →
        (g.dataMapOuts s).find? (fun p => p.2 == k) = some (u, j) →
        u ≠ t) →
      (commitOutputs (g.dataMapOuts s) g res).nodeWeight t =
        g.nodeWeight t) := by
  constructor
  · intro i val t j hval hfind ht hlater
    exact commitOutputs_write _ g hval hfind ht
      (fun k hik _ u j' hf => hlater k u j' hik hf)
  · intro t h
    exact commitOutputs_frame _ g (fun k hk u j hf => h k u j hk hf)

/-- C4 witness: in `gW4` a single output value lands in the slot-0 store
while the slot-5 store keeps its previous value. -/
theorem spec_output_commit_positional_witness :
    (commitOutputs (gW4.dataMapOuts 0) gW4 [.string "r0"]).nodeWeight 1 =
      some (.store (.string "r0"))
    ∧ (commitOutputs (gW4.dataMapOuts 0) gW4 [.string "r0"]).nodeWeight 2 =
      gW4.nodeWeight 2 := by
  have houts : gW4.dataMapOuts 0 = [(1, 0), (2, 5)] := rfl
  have h := spec_output_commit_positional gW4 0 [.string "r0"]
  constructor
  · refine h.1 0 (.string "r0") 1 0 rfl rfl (by decide) ?_
    intro k u j' hk hf
    rw [houts] at hf
    by_cases h5 : k = 5
    · subst h5
      simp [List.find?] at hf
      omega
    · have h0 : (0 == k) = false := by simp; omega
      have h5' : (5 == k) = false := by simp; omega
    
      simp [List.find?, h0, h5'] at hf
  · refine h.2 2 ?_
    intro k u j hk hf
    have hk0 : k = 0 := Nat.lt_one_iff.mp (by simpa using hk)
    subst hk0
    rw [houts] at hf
    simp [List.find?] at hf
    omega

/-- C8: a store with no incoming `DataFlow` edge that no executed node's
outgoing `DataMap` edge targets keeps its value across any number of
steps, however often it is read as an input. -/
theorem spec_untouched_store_frame (g : Graph) (t : Nat) (ss : List Nat)
    (hflow : ∀ e ∈ g.edges, e.weight = GraphEdge.dataFlow → e.target ≠ t)
    (hout : ∀ s ∈ ss, ∀ e ∈ g.edges, e.source = s →
      e.weight.isDataMap = true → e.target ≠ t) :
    (runSteps g ss).nodeWeight t = g.nodeWeight t := by
  induction ss generalizing g with
  | nil => rfl
  | cons s rest ih =>
    have hstep := executeStep_frame (g := g) (s := s) hflow
      (hout s (List.mem_cons_self s rest))
    have hed := executeStep_edges g s
    have hflow' : ∀ e ∈ (executeStep g s).1.edges,
        e.weight = GraphEdge.dataFlow → e.target ≠ t := by
      intro e he
      exact hflow e (hed ▸ he)
    have hout' : ∀ s' ∈ rest, ∀ e ∈ (executeStep g s).1.edges,
        e.source = s' → e.weight.isDataMap = true → e.target ≠ t := by
      intro s' hs' e he
      exact hout s' (List.mem_cons_of_mem s hs') e (hed ▸ he)
    show (runSteps (executeStep g s).1 rest).nodeWeight t = g.nodeWeight t
    exact (ih (g := (executeStep g s).1) hflow' hout').trans hstep

/-- C8 witness: executing the node of `gW8` three times leaves its input
store (handle 0, no mirror, never written) exactly as it was. -/
theorem spec_untouched_store_frame_witness :
    (runSteps gW8 [1, 1, 1]).nodeWeight 0 = gW8.nodeWeight 0 :=
  spec_untouched_store_frame gW8 0 [1, 1, 1] (by decide) (by decide)

/-- C9: output commit never checks the write target's variant — after a
successful run, the node reached by the first matching outgoing `DataMap`
edge is unconditionally replaced by a `Store` holding the output value,
whatever weight it held before (including `SyncNode`/`AsyncNode`), and
the step still succeeds: no invalid-weight error arises for the target. -/
theorem spec_output_overwrites_any_variant (g g1 : Graph) (s : Nat)
    (inputs res : List Value) (nd : NodeImpl) (i t j : Nat) (val : Value)
    (w : GraphNode)
    (hri : resolvedInputs g s = (g1, .ok inputs))
    (hnode : g1.nodeWeight s = some (GraphNode.syncNode nd))
    (hrun : nd.run inputs = .ok res)
    (hprev : g1.nodeWeight t = some w)
    (hval : res[i]? = some val)
    (hfind : (g1.dataMapOuts s).find? (fun p => p.2 == i) = some (t, j))
    (hlater : ∀ k u j', i < k →
      (g1.dataMapOuts s).find? (fun p => p.2 == k) = some (u, j') →
      u ≠ t) :
    (∃ ns, (executeStep g s).2 = .ok ns)
    ∧ (executeStep g s).1.nodeWeight t = some (.store val) := by
  have heq := executeStep_sync_ok hri hnode hrun
  have ht : t < g1.nodes.length := by
    by_contra hno
    have : g1.nodeWeight t = none :=
      List.getElem?_eq_none (Nat.le_of_not_lt hno)
    simp [hprev] at this
  constructor
  · exact ⟨_, by rw [heq]⟩
  · rw [heq]
    exact commitOutputs_write _ g1 hval hfind ht
      (fun k hik _ u j' hf => hlater k u j' hik hf)

/-- C9 witness: in `gW9` the slot-0 output edge targets a `SyncNode`;
the step succeeds and that node is replaced by `Store("z")`. -/
theorem spec_output_overwrites_any_variant_witness :
    (∃ ns, (executeStep gW9 0).2 = .ok ns)
    ∧ (executeStep gW9 0).1.nodeWeight 1 = some (.store (.string "z")) := by
  have houts : gW9.dataMapOuts 0 = [(1, 0)] := rfl
  refine spec_output_overwrites_any_variant gW9 gW9 0 [] [.string "z"]
    (constNode [.string "z"]) 0 1 0 (.string "z") (.syncNode idNode)
    rfl rfl rfl rfl rfl rfl ?_
  intro k u j' hk hf
  rw [houts] at hf
  have h0 : (0 == k) = false := by simp; omega
  simp [List.find?, h0] at hf

/-- C10: when two outgoing `DataMap` edges carry the same slot index `i`,
only the first one encountered during enumeration receives output `i`;
the target of the later same-index edge keeps its previous weight. -/
theorem spec_duplicate_output_slots (g : Graph) (s : Nat)
    (res : List Value) (i t u j : Nat) (val : Value)
    (hfind : (g.dataMapOuts s).find? (fun p => p.2 == i) = some (t, j))
    (_hmem : (u, i) ∈ g.dataMapOuts s)
    (hne : u ≠ t)
    (hval : res[i]? = some val)
    (ht : t < g.nodes.length)
    (hlater : ∀ k w j', i < k →
      (g.dataMapOuts s).find? (fun p => p.2 == k) = some (w, j') →
      w ≠ t)
    (hother : ∀ k w j', k ≠ i →
      (g.dataMapOuts s).find? (fun p => p.2 == k) = some (w, j') →
      w ≠ u) :
    (commitOutputs (g.dataMapOuts s) g res).nodeWeight t =
      some (.store val)
    ∧ (commitOutputs (g.dataMapOuts s) g res).nodeWeight u =
      g.nodeWeight u := by
  constructor
  · exact commitOutputs_write _ g hval hfind ht
      (fun k hik _ w j' hf => hlater k w j' hik hf)
  · apply commitOutputs_frame
    intro k _ w j' hf
    by_cases hki : k = i
    · subst hki
      rw [hfind] at hf
      obtain ⟨rfl, rfl⟩ : t = w ∧ j = j' := by
        simpa using hf
      exact fun hwu => hne hwu.symm
    · exact hother k w j' hki hf

/-- C10 witness: in `gW10` both outgoing edges carry slot 0; the first
enumerated target (handle 1) receives `"z"`, the second (handle 2) keeps
`"q"`. -/
theorem spec_duplicate_output_slots_witness :
    (commitOutputs (gW10.dataMapOuts 0) gW10 [.string "z"]).nodeWeight 1 =
      some (.store (.string "z"))
    ∧ (commitOutputs (gW10.dataMapOuts 0) gW10 [.string "z"]).nodeWeight 2 =
      gW10.nodeWeight 2 := by
  have houts : gW10.dataMapOuts 0 = [(1, 0), (2, 0)] := rfl
  refine spec_duplicate_output_slots gW10 0 [.string "z"] 0 1 2 0
    (.string "z") rfl (by decide) (by decide) rfl (by decide) ?_ ?_
  · intro k w j' hk hf
    rw [houts] at hf
    have h0 : (0 == k) = false := by simp; omega
    simp [List.find?, h0] at hf
  · intro k w j' hki hf
    rw [houts] at hf
    have h0 : (0 == k) = false := by simpa using fun h => hki h.symm
    simp [List.find?, h0] at hf

end Lemon
